import Mathlib

/-!
Verification of the core RTOS kernel of the repository (a priority-based
cooperative kernel for RV64): a shallow embedding of the architecture layer
(`src/arch/mod.rs`), the intrusive doubly-linked list (`src/kernel/list.rs`)
and the scheduler (`src/kernel/scheduler.rs`), together with theorems that
check the natural-language specification against the code.

Machine integers (`usize`, `u64`) are modelled as `Nat`; raw pointers are
modelled as natural-number addresses with `0` playing the role of the null
pointer; word-granular memory is a function from byte addresses to values.
-/

/-! ## Architecture layer (src/arch/mod.rs)

`initialize_task_stack(entry, stack)` builds the initial 31-word context
frame at the (16-byte aligned-down) top of the task stack.  We model the
stack buffer by its base byte address `base` (a `&mut [usize]` is 8-byte
aligned) and its length `len` in 8-byte words, and memory as a map from the
byte address of a word to the word stored there. -/

/-- Size of the saved context on the stack in bytes: 31 registers of 8 bytes
(`CONTEXT_SIZE` in src/arch/mod.rs). -/
def CONTEXT_SIZE : Nat := 31 * 8

/-- Stack alignment required by the RV64 ABI (`STACK_ALIGNMENT`). -/
def STACK_ALIGNMENT : Nat := 16

/-- Word-granular memory update: store value `v` in the word whose first
byte sits at address `a`. -/
def writeWord (m : Nat → Nat) (a v : Nat) : Nat → Nat :=
  fun x => if x = a then v else m x

/-- The stack-pointer computation of `initialize_task_stack`
(src/arch/mod.rs lines 28-35): take the one-past-the-end address of the
buffer, align it down to 16 bytes (`& !(STACK_ALIGNMENT - 1)` clears the low
four bits, i.e. subtracts the remainder mod 16), and reserve 31 words. -/
def init_stack_sp (base len : Nat) : Nat :=
  let stack_top := base + 8 * len
  let aligned_top := stack_top - stack_top % STACK_ALIGNMENT
  aligned_top - CONTEXT_SIZE

/-- The register-zeroing loop of `initialize_task_stack`:
`for i in 0..n { *sp.add(i) = 0 }`. -/
def zero_regs (m : Nat → Nat) (sp : Nat) : Nat → (Nat → Nat)
  | 0 => m
  | n + 1 => writeWord (zero_regs m sp n) (sp + 8 * n) 0

/-- Model of `initialize_task_stack` (src/arch/mod.rs lines 26-54): compute the frame
pointer, zero the 31 context words, write the entry address into the word at
offset 0 (the `ra` slot), and return the frame pointer together with the
resulting memory. -/
def initialize_task_stack (entry : Nat) (m : Nat → Nat) (base len : Nat) :
    Nat × (Nat → Nat) :=
  let sp := init_stack_sp base len
  let m1 := zero_regs m sp 31
  let m2 := writeWord m1 sp entry
  (sp, m2)

/-! ## Intrusive doubly-linked list (src/kernel/list.rs)

Nodes live in a heap `nodes : Nat → ListNode` indexed by address, with `0`
playing the role of the null pointer.  A `KList` models one `List` value
(named `KList` here only because `List` is taken by Lean): its address
`self` (the value stored in `container` fields), the address `marker` of
its embedded `end_marker` sentinel node, the node heap, and the `length`
and `index` fields of the `List` struct. -/

/-- The value `u64::MAX` given to the sentinel node. -/
def U64_MAX : Nat := 2 ^ 64 - 1

/-- Model of `ListNode` (src/kernel/list.rs lines 9-21): intrusive node with
`next`/`prev` links, a pointer to the containing list, a sort value and an
owner back-pointer.  All pointers are addresses, `0` = null. -/
structure ListNode where
  next : Nat
  prev : Nat
  container : Nat
  value : Nat
  owner : Nat
deriving DecidableEq

/-- Model of `ListNode::new()` (lines 24-32): all pointers null, value 0. -/
def ListNode.new : ListNode := ⟨0, 0, 0, 0, 0⟩

/-- Model of `ListNode::is_in_list` (lines 46-48). -/
def ListNode.is_in_list (n : ListNode) : Bool := n.container != 0

/-- Node-heap update at one address. -/
def writeNode (f : Nat → ListNode) (p : Nat) (x : ListNode) : Nat → ListNode :=
  fun q => if q = p then x else f q

/-- One `List` (src/kernel/list.rs lines 68-72) together with the node heap
it lives in: `self` is the address of the `List` object itself, `marker`
the address of its embedded `end_marker` node. -/
structure KList where
  self : Nat
  marker : Nat
  nodes : Nat → ListNode
  length : Nat
  index : Nat

/-- Model of `List::init` (lines 83-89): make the sentinel self-linked with value
`u64::MAX`, reset `length` and point `index` at the sentinel. -/
def KList.init (st : KList) : KList :=
  let f := writeNode st.nodes st.marker
    { st.nodes st.marker with next := st.marker, prev := st.marker, value := U64_MAX }
  { st with nodes := f, length := 0, index := st.marker }

/-- The splice shared by `insert_sorted` (lines 103-110) and `insert_end`
(lines 119-125), executed statement by statement against the heap:
`item.next = it; item.prev = (*it).prev; (*(*it).prev).next = item;
(*it).prev = item; item.container = self; length += 1`. -/
def KList.linkBefore (st : KList) (item it : Nat) : KList :=
  let f1 := writeNode st.nodes item { st.nodes item with next := it }
  let f2 := writeNode f1 item { f1 item with prev := (f1 it).prev }
  let p := (f2 it).prev
  let f3 := writeNode f2 p { f2 p with next := item }
  let f4 := writeNode f3 it { f3 it with prev := item }
  let f5 := writeNode f4 item { f4 item with container := st.self }
  { st with nodes := f5, length := st.length + 1 }

/-- The search loop of `insert_sorted` (lines 94-101): starting at the
sentinel, repeatedly step to `next` until a node with `value ≥ item_value`
is found.  The source loop relies on the sentinel value `u64::MAX` for
termination; we give it `length + 1` steps of fuel, which always suffices
on a well-formed list. -/
def findGE (f : Nat → ListNode) (v : Nat) : Nat → Nat → Option Nat
  | 0, _ => none
  | fuel + 1, it =>
    let it2 := (f it).next
    if v ≤ (f it2).value then some it2 else findGE f v fuel it2

/-- Model of `List::insert_sorted` (lines 91-112): walk forward from the sentinel to
the first node whose value is `≥ item.value` and splice `item` in
immediately before it.  `none` means the walk did not terminate within
`length + 1` steps, which cannot happen on a well-formed list. -/
def KList.insert_sorted (st : KList) (item : Nat) : Option KList :=
  match findGE st.nodes ((st.nodes item).value) (st.length + 1) st.marker with
  | none => none
  | some it => some (st.linkBefore item it)

/-- Model of `List::insert_end` (lines 115-127): splice `item` in immediately before
the sentinel (FIFO tail). -/
def KList.insert_end (st : KList) (item : Nat) : KList :=
  st.linkBefore item st.marker

/-- Model of `List::remove` (lines 133-158): if the node's `next` or `prev` pointer
is null, return `false` and change nothing; otherwise stitch the
neighbours together, rewind `index` if it pointed at the node, null the
node's `container`/`next`/`prev` and decrement `length` (Nat subtraction
models the `usize` decrement, which cannot underflow on a well-formed
list). -/
def KList.remove (st : KList) (item : Nat) : KList × Bool :=
  if (st.nodes item).next = 0 ∨ (st.nodes item).prev = 0 then (st, false)
  else
    let f0 := st.nodes
    let n1 := (f0 item).next
    let f1 := writeNode f0 n1 { f0 n1 with prev := (f0 item).prev }
    let p1 := (f1 item).prev
    let f2 := writeNode f1 p1 { f1 p1 with next := (f1 item).next }
    let idx := if st.index = item then (f2 item).prev else st.index
    let f3 := writeNode f2 item { f2 item with container := 0 }
    let f4 := writeNode f3 item { f3 item with next := 0 }
    let f5 := writeNode f4 item { f4 item with prev := 0 }
    ({ st with nodes := f5, length := st.length - 1, index := idx }, true)

/-- Model of `List::get_head` (lines 161-167). -/
def KList.get_head (st : KList) : Option Nat :=
  if st.length = 0 then none else some ((st.nodes st.marker).next)

/-- Model of `List::is_empty` (lines 179-181). -/
def KList.is_empty (st : KList) : Bool := st.length == 0

/-- Doubly-linked chain predicate: `chainB f a ns b` holds when following
`next` pointers from `a` visits exactly the nodes of `ns` and then reaches
`b`, with every `prev` pointer mirroring the corresponding `next`. -/
def chainB (f : Nat → ListNode) : Nat → List Nat → Nat → Bool
  | a, [], b => decide ((f a).next = b) && decide ((f b).prev = a)
  | a, n :: ns, b => decide ((f a).next = n) && decide ((f n).prev = a) && chainB f n ns b

/-- Well-formedness of a list whose non-sentinel nodes, in forward
traversal order, are `ns`: the sentinel cycle is closed, `length` mirrors
the traversal, node addresses are distinct, non-null and distinct from the
sentinel, every node records this list as its container, and the sentinel
carries the maximal sort value. -/
def KList.wf (st : KList) (ns : List Nat) : Prop :=
  chainB st.nodes st.marker ns st.marker = true ∧
  st.length = ns.length ∧
  ns.Nodup ∧
  st.marker ∉ ns ∧
  st.marker ≠ 0 ∧
  0 ∉ ns ∧
  ns.all (fun n => decide ((st.nodes n).container = st.self)) = true ∧
  (st.nodes st.marker).value = U64_MAX

/-- Forward traversal: follow `next` pointers from the given node until the
sentinel is reached again (with bounded fuel). -/
def traverseFrom (f : Nat → ListNode) (marker : Nat) : Nat → Nat → List Nat
  | 0, _ => []
  | fuel + 1, p => if p = marker then [] else p :: traverseFrom f marker fuel ((f p).next)

/-- The forward traversal of a list, starting at the first node after the
sentinel. -/
def KList.traversal (st : KList) : List Nat :=
  traverseFrom st.nodes st.marker (st.length + 1) ((st.nodes st.marker).next)

/-- A concrete one-element list used as a test vector: the `List` object at
address 100 with its sentinel node at address 1 and the node at address 2
linked (value 5); the node at address 3 (also value 5) is unlinked. -/
def exList : KList where
  self := 100
  marker := 1
  nodes := fun p =>
    if p = 1 then { next := 2, prev := 2, container := 0, value := U64_MAX, owner := 0 }
    else if p = 2 then { next := 1, prev := 1, container := 100, value := 5, owner := 0 }
    else if p = 3 then { next := 0, prev := 0, container := 0, value := 5, owner := 0 }
    else ListNode.new
  length := 1
  index := 1

/-- A second concrete list used as a test vector: nodes 2 (value 3) and 4
(value 9) linked in that order; the node at address 3 (value 5) is
unlinked. -/
def exList2 : KList where
  self := 100
  marker := 1
  nodes := fun p =>
    if p = 1 then { next := 2, prev := 4, container := 0, value := U64_MAX, owner := 0 }
    else if p = 2 then { next := 4, prev := 1, container := 100, value := 3, owner := 0 }
    else if p = 4 then { next := 1, prev := 2, container := 100, value := 9, owner := 0 }
    else if p = 3 then { next := 0, prev := 0, container := 0, value := 5, owner := 0 }
    else ListNode.new
  length := 2
  index := 1

/-! ## Task model and scheduler (src/kernel/types.rs, task.rs, scheduler.rs)

The scheduler manipulates its ready lists only through the `List` API
(`insert_end`, `remove`, `is_empty`, `get_head`), and every node it links
is a `state_list_item` whose `owner` back-pointer has been installed
(`TaskControlBlock::update_list_item_owners`).  We therefore model each
ready list by its forward traversal, as a sequence of task ids:
`insert_end` appends at the tail, `List::remove` unlinks the task exactly
when its node is linked (i.e. when the id occurs in the list),
`get_head` is the head of the sequence, `is_empty` tests for the empty
sequence.  The heap of `TaskControlBlock`s reachable through the
scheduler's raw pointers is a map from task id to `TCB`; the null
`current_task` pointer is `none`. -/

/-- Model of `TaskState` (src/kernel/types.rs lines 45-51). -/
inductive TaskState where
  | Ready
  | Running
  | Blocked
  | Suspended
  | Deleted
deriving DecidableEq

/-- Model of `config::MAX_PRIORITIES` (src/kernel/types.rs line 73). -/
def MAX_PRIORITIES : Nat := 32

/-- Model of `config::IDLE_PRIORITY` (src/kernel/types.rs line 76). -/
def IDLE_PRIORITY : Nat := 0

/-- The fields of `TaskControlBlock` (src/kernel/task.rs lines 7-33) that
the scheduler reads and writes: the current priority and the task state.
(The stack pointers, name, embedded list nodes and delay fields are not
touched by the operations modelled here.) -/
structure TCB where
  priority : Nat
  state : TaskState
deriving DecidableEq

/-- Model of `Scheduler` (src/kernel/scheduler.rs lines 13-42), with each ready
list abstracted to its forward traversal of task ids, plus the heap
`tcbs` of task control blocks reachable through the scheduler's raw
pointers. -/
structure Scheduler where
  ready_lists : Nat → List Nat
  current_task : Option Nat
  top_ready_priority : Nat
  task_count : Nat
  tick_count : Nat
  scheduler_running : Bool
  suspend_depth : Nat
  tcbs : Nat → TCB

/-- Write one task's state in the TCB heap (`tcb.state = ...`). -/
def setState (s : Scheduler) (t : Nat) (st : TaskState) : Scheduler :=
  { s with tcbs := fun u => if u = t then { s.tcbs u with state := st } else s.tcbs u }

/-- Replace one ready list. -/
def setList (s : Scheduler) (p : Nat) (l : List Nat) : Scheduler :=
  { s with ready_lists := fun q => if q = p then l else s.ready_lists q }

/-- Model of `Scheduler::add_task_to_ready_list` (scheduler.rs lines 84-92): mark
the task `Ready`, append its node at the tail of its priority's list
(`insert_end`), and raise `top_ready_priority` if the task's priority
exceeds it. -/
def add_task_to_ready_list (s : Scheduler) (t : Nat) : Scheduler :=
  let s1 := setState s t TaskState.Ready
  let priority := (s1.tcbs t).priority
  let s2 := setList s1 priority (s1.ready_lists priority ++ [t])
  if priority > s2.top_ready_priority then
    { s2 with top_ready_priority := priority }
  else s2

/-- The loop of `Scheduler::update_top_ready_priority` (scheduler.rs lines
110-121): scan downward from the current `top_ready_priority` for the
highest non-empty list; settle on `IDLE_PRIORITY` if none is found on the
way down. -/
def updateTopAux (rl : Nat → List Nat) : Nat → Nat
  | 0 => IDLE_PRIORITY
  | p + 1 => if (rl (p + 1)).isEmpty then updateTopAux rl p else p + 1

/-- Model of `Scheduler::update_top_ready_priority` (scheduler.rs lines 110-121). -/
def update_top_ready_priority (s : Scheduler) : Scheduler :=
  { s with top_ready_priority := updateTopAux s.ready_lists s.top_ready_priority }

/-- Model of `Scheduler::remove_task_from_ready_list` (scheduler.rs lines 94-108):
`List::remove` succeeds exactly when the node is linked, i.e. when the
task id occurs in the list; on success, if the removal emptied the list
at the cached top priority, rescan for the new top. -/
def remove_task_from_ready_list (s : Scheduler) (t : Nat) : Scheduler × Bool :=
  let priority := (s.tcbs t).priority
  if t ∈ s.ready_lists priority then
    let s1 := setList s priority ((s.ready_lists priority).erase t)
    let s2 :=
      if (s1.ready_lists priority).isEmpty ∧ priority = s1.top_ready_priority then
        update_top_ready_priority s1
      else s1
    (s2, true)
  else (s, false)

/-- The selection loop of `Scheduler::select_highest_priority_task`
(scheduler.rs lines 132-159): walk down from `top_ready_priority`; the
head of the first non-empty list is selected (owner back-pointers are
installed, so the owner lookup never yields null); if priority 0 is
reached without a ready task, the loop breaks and null is returned. -/
def scanReady (rl : Nat → List Nat) : Nat → Option Nat
  | 0 => (rl 0).head?
  | p + 1 =>
    match (rl (p + 1)).head? with
    | some h => some h
    | none => scanReady rl p

/-- Model of `Scheduler::select_highest_priority_task` (scheduler.rs lines
123-163): demote a non-null current task to `Ready`, then pick the head
of the highest non-empty ready list, mark it `Running` (leaving it linked
for round-robin) and return it. -/
def select_highest_priority_task (s : Scheduler) : Scheduler × Option Nat :=
  let s1 :=
    match s.current_task with
    | some c => setState s c TaskState.Ready
    | none => s
  match scanReady s1.ready_lists s1.top_ready_priority with
  | some h => (setState s1 h TaskState.Running, some h)
  | none => (s1, none)

/-- The two `assert!` statements of `select_next_different_task`
(scheduler.rs lines 194 and 198-201): the first fires when the current
task could not be removed from its ready list, the second is a hard-coded
debug check that fires when the current task has priority 2 and its ready
list is still non-empty after the removal. -/
inductive SchedPanic where
  | removeFailed
  | listNotEmpty
deriving DecidableEq

/-- Model of `Scheduler::select_next_different_task` (scheduler.rs lines 176-226):
temporarily unlink the current task, assert that the removal succeeded
(`assert!(removed, ...)`), run the hard-coded debug assertion
(`if priority == 2 { assert!(self.ready_lists[priority].is_empty(), ...) }`),
select from the remaining tasks, re-append the current task at the tail
of its list, and return the selected task if it is non-null and
different, else the current task re-marked `Running`.  A panic from
either assertion is modelled as `Except.error`. -/
def select_next_different_task (s : Scheduler) :
    Except SchedPanic (Scheduler × Option Nat) :=
  match s.current_task with
  | none => Except.ok (select_highest_priority_task s)
  | some current =>
    let priority := (s.tcbs current).priority
    let res := remove_task_from_ready_list s current
    let s1 := res.1
    let removed := res.2
    if removed = false then Except.error SchedPanic.removeFailed
    else if priority = 2 ∧ (s1.ready_lists priority).isEmpty = false then
      Except.error SchedPanic.listNotEmpty
    else
      let res2 := select_highest_priority_task s1
      let s2 := res2.1
      let next := res2.2
      let s3 :=
        if removed then add_task_to_ready_list (setState s2 current TaskState.Ready) current
        else s2
      match next with
      | some n =>
        if n ≠ current then Except.ok (s3, some n)
        else Except.ok (setState s3 current TaskState.Running, some current)
      | none => Except.ok (setState s3 current TaskState.Running, some current)

/-- Model of `Scheduler::yield_task` (scheduler.rs lines 228-239): remove the
current task from its ready list and re-append it at the tail; a null
current task is a no-op. -/
def yield_task (s : Scheduler) : Scheduler :=
  match s.current_task with
  | none => s
  | some current =>
    let s1 := (remove_task_from_ready_list s current).1
    add_task_to_ready_list s1 current

/-- Model of `Scheduler::suspend` (scheduler.rs lines 245-254), with the machine
interrupt-enable bit (`mstatus.MIE`, cleared through
`riscv::interrupt::disable`) carried alongside the scheduler state:
disable interrupts on the 0 to 1 depth transition, then increment the
depth. -/
def suspend (s : Scheduler) (mie : Bool) : Scheduler × Bool :=
  let mie1 := if s.suspend_depth = 0 then false else mie
  ({ s with suspend_depth := s.suspend_depth + 1 }, mie1)

/-- Model of `Scheduler::resume` (scheduler.rs lines 259-270): with positive depth,
decrement it and re-enable interrupts (`riscv::interrupt::enable`)
exactly when the depth reaches 0; with depth 0 the call does nothing. -/
def resume (s : Scheduler) (mie : Bool) : Scheduler × Bool :=
  if s.suspend_depth > 0 then
    let s1 := { s with suspend_depth := s.suspend_depth - 1 }
    if s1.suspend_depth = 0 then (s1, true) else (s1, mie)
  else (s, mie)

/-- Model of `Scheduler::is_suspended` (scheduler.rs lines 273-275). -/
def is_suspended (s : Scheduler) : Bool := decide (s.suspend_depth > 0)

/-- The nested critical-section scenario of the spec: suspend twice, then
resume twice, threading the interrupt-enable bit; the four intermediate
results are returned in order. -/
def suspendTwiceResumeTwice (s : Scheduler) (mie : Bool) :
    (Scheduler × Bool) × (Scheduler × Bool) × (Scheduler × Bool) × (Scheduler × Bool) :=
  let r1 := suspend s mie
  let r2 := suspend r1.1 r1.2
  let r3 := resume r2.1 r2.2
  let r4 := resume r3.1 r3.2
  (r1, r2, r3, r4)

/-- The cached-top invariant: `top_ready_priority` is at least the index
of every non-empty ready list. -/
def TopInv (s : Scheduler) : Prop :=
  ∀ p, s.ready_lists p ≠ [] → p ≤ s.top_ready_priority

/-- Exactness of the cached top: the invariant holds and
`top_ready_priority` itself indexes a non-empty list, or is
`IDLE_PRIORITY` when every list is empty. -/
def TopExact (s : Scheduler) : Prop :=
  TopInv s ∧
    (s.top_ready_priority = IDLE_PRIORITY ∨ s.ready_lists s.top_ready_priority ≠ [])

/-- A scheduler state used as a test vector: one task (id 7, priority 3)
linked in ready list 3, with the stale but sound cache value
`top_ready_priority = 5`. -/
def exSched : Scheduler where
  ready_lists := fun p => if p = 3 then [7] else []
  current_task := none
  top_ready_priority := 5
  task_count := 1
  tick_count := 0
  scheduler_running := false
  suspend_depth := 0
  tcbs := fun t =>
    if t = 7 then { priority := 3, state := TaskState.Ready }
    else { priority := 0, state := TaskState.Ready }

/-- A scheduler state with two priority-2 tasks: task 10 (current,
`Running`) and task 11 (`Ready`), both linked in ready list 2. -/
def exSched2 : Scheduler where
  ready_lists := fun p => if p = 2 then [10, 11] else []
  current_task := some 10
  top_ready_priority := 2
  task_count := 2
  tick_count := 0
  scheduler_running := true
  suspend_depth := 0
  tcbs := fun t =>
    if t = 10 then { priority := 2, state := TaskState.Running }
    else if t = 11 then { priority := 2, state := TaskState.Ready }
    else { priority := 0, state := TaskState.Ready }

/-- A scheduler state with task 0 at priority 3 and task 1 at priority 1,
both ready, no current task. -/
def exSched3 : Scheduler where
  ready_lists := fun p => if p = 3 then [0] else if p = 1 then [1] else []
  current_task := none
  top_ready_priority := 3
  task_count := 2
  tick_count := 0
  scheduler_running := true
  suspend_depth := 0
  tcbs := fun t =>
    if t = 0 then { priority := 3, state := TaskState.Ready }
    else if t = 1 then { priority := 1, state := TaskState.Ready }
    else { priority := 0, state := TaskState.Ready }

/-- A scheduler state whose single task (id 0, priority 3) is current and
linked in ready list 3. -/
def exSched4 : Scheduler where
  ready_lists := fun p => if p = 3 then [0] else []
  current_task := some 0
  top_ready_priority := 3
  task_count := 1
  tick_count := 0
  scheduler_running := true
  suspend_depth := 0
  tcbs := fun t =>
    if t = 0 then { priority := 3, state := TaskState.Running }
    else { priority := 0, state := TaskState.Ready }

/-- The state `exSched2` moved to priority 3: tasks 10 (current) and 11,
both at priority 3, linked in ready list 3 in that order. -/
def exSched5 : Scheduler where
  ready_lists := fun p => if p = 3 then [10, 11] else []
  current_task := some 10
  top_ready_priority := 3
  task_count := 2
  tick_count := 0
  scheduler_running := true
  suspend_depth := 0
  tcbs := fun t =>
    if t = 10 then { priority := 3, state := TaskState.Running }
    else if t = 11 then { priority := 3, state := TaskState.Ready }
    else { priority := 0, state := TaskState.Ready }

/-! ## Theorems about the architecture layer -/

theorem zero_regs_get (m : Nat → Nat) (sp : Nat) (n i : Nat) (h : i < n) :
    zero_regs m sp n (sp + 8 * i) = 0 := by
  induction n with
  | zero => omega
  | succ k ih =>
    by_cases hik : i = k
    · subst hik
      simp [zero_regs, writeWord]
    · have hlt : i < k := by omega
      have hne : sp + 8 * i ≠ sp + 8 * k := by omega
      simp only [zero_regs, writeWord]
      rw [if_neg hne]
      exact ih hlt

theorem zero_regs_other (m : Nat → Nat) (sp : Nat) (n a : Nat)
    (h : ∀ i, i < n → a ≠ sp + 8 * i) :
    zero_regs m sp n a = m a := by
  induction n with
  | zero => rfl
  | succ k ih =>
    simp only [zero_regs, writeWord]
    rw [if_neg (h k (by omega))]
    exact ih fun i hi => h i (by omega)

/-- C1 counterexample: at the concrete input `base = 0`, `len = 512` (a
properly aligned 512-word buffer) the pointer returned by
`initialize_task_stack` is congruent to 8 modulo 16, hence NOT 16-byte
aligned: the code aligns the top of stack and then subtracts
`31 * 8 = 248` bytes, and `248 % 16 = 8`. -/
theorem initialize_task_stack_not_16_aligned :
    (initialize_task_stack 0 (fun _ => 0) 0 512).1 % 16 ≠ 0 := by decide

/-- C1 (amended): for every entry function and every 8-byte aligned stack
buffer of at least 32 words, the pointer returned by
`initialize_task_stack` is 8-byte aligned and congruent to 8 modulo 16
(so the pointer plus the 248-byte context frame — the stack pointer the
task sees on entry — is 16-byte aligned, but the returned pointer itself
never is). -/
theorem initialize_task_stack_alignment (entry : Nat) (m : Nat → Nat)
    (base len : Nat) (hb : base % 8 = 0) (hl : 32 ≤ len) :
    (initialize_task_stack entry m base len).1 % 8 = 0 ∧
    (initialize_task_stack entry m base len).1 % 16 = 8 ∧
    ((initialize_task_stack entry m base len).1 + CONTEXT_SIZE) % 16 = 0 := by
  simp only [initialize_task_stack, init_stack_sp, CONTEXT_SIZE, STACK_ALIGNMENT]
  omega

/-- Witness for the amended C1 theorem at `entry = 7`, `base = 16`,
`len = 64`. -/
theorem initialize_task_stack_alignment_witness :
    (16 : Nat) % 8 = 0 ∧ (32 : Nat) ≤ 64 ∧
    (initialize_task_stack 7 (fun _ => 9) 16 64).1 % 16 = 8 :=
  ⟨by decide, by decide,
    (initialize_task_stack_alignment 7 (fun _ => 9) 16 64 (by decide) (by decide)).2.1⟩

/-- C8: for every entry function and every 8-byte aligned stack buffer of at
least 32 words, the frame returned by `initialize_task_stack` lies within
the buffer, the word at offset 0 of the frame (the `ra` slot) equals the
address of `entry`, and the other 30 words of the frame are all zero. -/
theorem initialize_task_stack_frame (entry : Nat) (m : Nat → Nat)
    (base len : Nat) (hb : base % 8 = 0) (hl : 32 ≤ len) :
    base ≤ (initialize_task_stack entry m base len).1 ∧
    (initialize_task_stack entry m base len).1 + CONTEXT_SIZE ≤ base + 8 * len ∧
    (initialize_task_stack entry m base len).2
      (initialize_task_stack entry m base len).1 = entry ∧
    (∀ i, 1 ≤ i → i ≤ 30 →
      (initialize_task_stack entry m base len).2
        ((initialize_task_stack entry m base len).1 + 8 * i) = 0) := by
  refine ⟨?_, ?_, ?_, ?_⟩
  · simp only [initialize_task_stack, init_stack_sp, CONTEXT_SIZE, STACK_ALIGNMENT]
    omega
  · simp only [initialize_task_stack, init_stack_sp, CONTEXT_SIZE, STACK_ALIGNMENT]
    omega
  · simp [initialize_task_stack, writeWord]
  · intro i h1 h30
    have hne : init_stack_sp base len + 8 * i ≠ init_stack_sp base len := by omega
    simp only [initialize_task_stack, writeWord]
    rw [if_neg hne]
    exact zero_regs_get m _ 31 i (by omega)

/-- Witness for C8 at `entry = 7`, `base = 16`, `len = 64`: the frame is in
bounds, the `ra` slot holds the entry address, and (for instance) the word
at offset 5 is zero. -/
theorem initialize_task_stack_frame_witness :
    (16 : Nat) % 8 = 0 ∧ (32 : Nat) ≤ 64 ∧
    16 ≤ (initialize_task_stack 7 (fun _ => 9) 16 64).1 ∧
    (initialize_task_stack 7 (fun _ => 9) 16 64).2
      (initialize_task_stack 7 (fun _ => 9) 16 64).1 = 7 ∧
    (initialize_task_stack 7 (fun _ => 9) 16 64).2
      ((initialize_task_stack 7 (fun _ => 9) 16 64).1 + 8 * 5) = 0 :=
  ⟨by decide, by decide,
    (initialize_task_stack_frame 7 (fun _ => 9) 16 64 (by decide) (by decide)).1,
    (initialize_task_stack_frame 7 (fun _ => 9) 16 64 (by decide) (by decide)).2.2.1,
    (initialize_task_stack_frame 7 (fun _ => 9) 16 64 (by decide) (by decide)).2.2.2
      5 (by decide) (by decide)⟩

/-! ## Theorems about the intrusive list -/

instance (st : KList) (ns : List Nat) : Decidable (st.wf ns) := by
  unfold KList.wf
  exact inferInstance

theorem chainB_nil_iff (f : Nat → ListNode) (a b : Nat) :
    chainB f a [] b = true ↔ (f a).next = b ∧ (f b).prev = a := by
  simp [chainB]

theorem chainB_cons_iff (f : Nat → ListNode) (a b n : Nat) (ns : List Nat) :
    chainB f a (n :: ns) b = true ↔
      (f a).next = n ∧ (f n).prev = a ∧ chainB f n ns b = true := by
  simp [chainB, and_assoc]

theorem chainB_prev_mem (f : Nat → ListNode) (a b : Nat) (ns : List Nat)
    (h : chainB f a ns b = true) (n : Nat) (hn : n ∈ ns) :
    (f n).prev = a ∨ (f n).prev ∈ ns := by
  induction ns generalizing a with
  | nil => cases hn
  | cons x xs ih =>
    rw [chainB_cons_iff] at h
    rcases List.mem_cons.mp hn with hx | hxs
    · subst hx
      exact Or.inl h.2.1
    · rcases ih x h.2.2 hxs with h1 | h1
      · right
        rw [h1]
        exact List.mem_cons_self x xs
      · exact Or.inr (List.mem_cons_of_mem x h1)

theorem chainB_next_mem (f : Nat → ListNode) (a b : Nat) (ns : List Nat)
    (h : chainB f a ns b = true) (n : Nat) (hn : n ∈ ns) :
    (f n).next = b ∨ (f n).next ∈ ns := by
  induction ns generalizing a with
  | nil => cases hn
  | cons x xs ih =>
    rw [chainB_cons_iff] at h
    rcases List.mem_cons.mp hn with hx | hxs
    · subst hx
      cases xs with
      | nil =>
        rw [chainB_nil_iff] at h
        exact Or.inl h.2.2.1
      | cons y ys =>
        rw [chainB_cons_iff] at h
        right
        rw [h.2.2.1]
        exact List.mem_cons_of_mem n (List.mem_cons_self y ys)
    · rcases ih x h.2.2 hxs with h1 | h1
      · exact Or.inl h1
      · exact Or.inr (List.mem_cons_of_mem x h1)

/-- C7: `List::remove` on a node whose `prev` or `next` pointer is null (in
particular a node already removed or never inserted) returns `false` and
leaves the entire list state — length, contents and the node's
container/prev/next pointers — unchanged; on a node linked in a
well-formed list it returns `true`, decrements `length` by one, and sets
the node's `container`, `prev` and `next` all to null. -/
theorem KList.remove_spec (st : KList) (item : Nat) (ns : List Nat) :
    ((st.nodes item).next = 0 ∨ (st.nodes item).prev = 0 →
      st.remove item = (st, false)) ∧
    (st.wf ns → item ∈ ns →
      (st.remove item).2 = true ∧
      (st.remove item).1.length + 1 = st.length ∧
      ((st.remove item).1.nodes item).container = 0 ∧
      ((st.remove item).1.nodes item).prev = 0 ∧
      ((st.remove item).1.nodes item).next = 0) := by
  constructor
  · intro h
    simp only [KList.remove]
    rw [if_pos h]
  · intro hwf hmem
    obtain ⟨hchain, hlen, hnodup, hm, hm0, h0, hcont, hval⟩ := hwf
    have hnext : (st.nodes item).next ≠ 0 := by
      rcases chainB_next_mem st.nodes st.marker st.marker ns hchain item hmem with h1 | h1
      · rw [h1]; exact hm0
      · intro hc; rw [hc] at h1; exact h0 h1
    have hprev : (st.nodes item).prev ≠ 0 := by
      rcases chainB_prev_mem st.nodes st.marker st.marker ns hchain item hmem with h1 | h1
      · rw [h1]; exact hm0
      · intro hc; rw [hc] at h1; exact h0 h1
    have hcond : ¬ ((st.nodes item).next = 0 ∨ (st.nodes item).prev = 0) := by
      rintro (h | h)
      · exact hnext h
      · exact hprev h
    have hns : 1 ≤ ns.length := by
      cases ns with
      | nil => cases hmem
      | cons y ys => simp
    refine ⟨?_, ?_, ?_, ?_, ?_⟩
    · simp only [KList.remove]
      rw [if_neg hcond]
    · simp only [KList.remove]
      rw [if_neg hcond]
      show st.length - 1 + 1 = st.length
      omega
    · simp only [KList.remove]
      rw [if_neg hcond]
      simp [writeNode]
    · simp only [KList.remove]
      rw [if_neg hcond]
      simp [writeNode]
    · simp only [KList.remove]
      rw [if_neg hcond]
      simp [writeNode]

/-- Witness for C7: on the concrete one-element list, removing the
unlinked node 3 fails and changes nothing, while removing the linked node
2 succeeds, drops the length from 1 to 0 and nulls the node's pointers. -/
theorem KList.remove_spec_witness :
    exList.remove 3 = (exList, false) ∧
    (exList.remove 2).2 = true ∧
    (exList.remove 2).1.length + 1 = exList.length ∧
    ((exList.remove 2).1.nodes 2).container = 0 ∧
    ((exList.remove 2).1.nodes 2).prev = 0 ∧
    ((exList.remove 2).1.nodes 2).next = 0 :=
  have h2 := (KList.remove_spec exList 2 [2]).2 (by decide) (by decide)
  ⟨(KList.remove_spec exList 3 [2]).1 (Or.inl (by decide)),
    h2.1, h2.2.1, h2.2.2.1, h2.2.2.2.1, h2.2.2.2.2⟩

/-- C5 counterexample: the concrete list holds exactly one node (address 2)
with value 5; inserting the fresh node 3, also with value 5, yields the
forward traversal `[3, 2]` — the new equal-keyed node is placed BEFORE the
existing one, not after it as the claim states.  (The loop in
`insert_sorted` stops at the FIRST node with `value >= item.value` and
splices the new node in before it.) -/
theorem insert_sorted_not_stable :
    exList.wf [2] ∧ (exList.nodes 2).value = 5 ∧ (exList.nodes 3).value = 5 ∧
    (exList.insert_sorted 3).map KList.traversal = some [3, 2] := by decide

/-! ### Field-level characterization of the splice -/

theorem linkBefore_marker (st : KList) (item it : Nat) :
    (st.linkBefore item it).marker = st.marker := rfl

theorem linkBefore_self (st : KList) (item it : Nat) :
    (st.linkBefore item it).self = st.self := rfl

theorem linkBefore_length (st : KList) (item it : Nat) :
    (st.linkBefore item it).length = st.length + 1 := rfl

theorem linkBefore_item_next (st : KList) (item it : Nat) (h1 : it ≠ item)
    (h2 : (st.nodes it).prev ≠ item) :
    ((st.linkBefore item it).nodes item).next = it := by
  simp [KList.linkBefore, writeNode, h1, h2, Ne.symm h1, Ne.symm h2]

theorem linkBefore_item_prev (st : KList) (item it : Nat) (h1 : it ≠ item)
    (h2 : (st.nodes it).prev ≠ item) :
    ((st.linkBefore item it).nodes item).prev = (st.nodes it).prev := by
  simp [KList.linkBefore, writeNode, h1, h2, Ne.symm h1, Ne.symm h2]

theorem linkBefore_item_container (st : KList) (item it : Nat) :
    ((st.linkBefore item it).nodes item).container = st.self := by
  simp [KList.linkBefore, writeNode]

theorem linkBefore_p_next (st : KList) (item it : Nat) (h1 : it ≠ item)
    (h2 : (st.nodes it).prev ≠ item) :
    ((st.linkBefore item it).nodes ((st.nodes it).prev)).next = item := by
  by_cases hpi : (st.nodes it).prev = it
  · simp [KList.linkBefore, writeNode, h1, h2, Ne.symm h1, Ne.symm h2, hpi]
  · simp [KList.linkBefore, writeNode, h1, h2, Ne.symm h1, Ne.symm h2, hpi]

theorem linkBefore_it_prev (st : KList) (item it : Nat) (h1 : it ≠ item) :
    ((st.linkBefore item it).nodes it).prev = item := by
  by_cases hpi : (st.nodes it).prev = it
  · simp [KList.linkBefore, writeNode, h1, hpi]
  · simp [KList.linkBefore, writeNode, h1, hpi]

theorem linkBefore_next_other (st : KList) (item it q : Nat) (h1 : it ≠ item)
    (hq1 : q ≠ item) (hq2 : q ≠ (st.nodes it).prev) :
    ((st.linkBefore item it).nodes q).next = (st.nodes q).next := by
  by_cases hqi : q = it
  · subst hqi
    simp [KList.linkBefore, writeNode, h1, hq1, hq2, Ne.symm hq2]
  · simp [KList.linkBefore, writeNode, h1, hq1, hq2, hqi]

theorem linkBefore_prev_other (st : KList) (item it q : Nat) (h1 : it ≠ item)
    (hq1 : q ≠ item) (hq3 : q ≠ it) :
    ((st.linkBefore item it).nodes q).prev = (st.nodes q).prev := by
  by_cases hqp : q = (st.nodes it).prev
  · subst hqp
    simp [KList.linkBefore, writeNode, h1, hq1, hq3, Ne.symm hq1, Ne.symm hq3, Ne.symm h1]
  · simp [KList.linkBefore, writeNode, h1, hq1, hq3, hqp]

theorem writeNode_value (f : Nat → ListNode) (p : Nat) (x : ListNode) (q : Nat)
    (hx : x.value = (f p).value) : (writeNode f p x q).value = (f q).value := by
  unfold writeNode
  by_cases h : q = p
  · subst h
    simp [hx]
  · simp [h]

set_option maxRecDepth 4000 in
theorem linkBefore_value (st : KList) (item it q : Nat) :
    ((st.linkBefore item it).nodes q).value = (st.nodes q).value := by
  simp only [KList.linkBefore]
  rw [writeNode_value, writeNode_value, writeNode_value, writeNode_value, writeNode_value]
  all_goals rfl

theorem writeNode_container (f : Nat → ListNode) (p : Nat) (x : ListNode) (q : Nat)
    (hx : x.container = (f p).container) :
    (writeNode f p x q).container = (f q).container := by
  unfold writeNode
  by_cases h : q = p
  · subst h
    simp [hx]
  · simp [h]

set_option maxRecDepth 4000 in
theorem linkBefore_container_other (st : KList) (item it q : Nat) (hq : q ≠ item) :
    ((st.linkBefore item it).nodes q).container = (st.nodes q).container := by
  have step : ∀ g : Nat → ListNode,
      (writeNode g item { g item with container := st.self } q).container =
        (g q).container := by
    intro g
    unfold writeNode
    rw [if_neg hq]
  simp only [KList.linkBefore]
  rw [step, writeNode_container, writeNode_container, writeNode_container, writeNode_container]
  all_goals rfl

/-! ### Chain lemmas -/

theorem chainB_congr (f g : Nat → ListNode) (b : Nat) (ns : List Nat) :
    ∀ a, (∀ x, x = a ∨ x ∈ ns → (g x).next = (f x).next) →
      (∀ x, x = b ∨ x ∈ ns → (g x).prev = (f x).prev) →
      chainB g a ns b = chainB f a ns b := by
  induction ns with
  | nil =>
    intro a hnext hprev
    simp only [chainB]
    rw [hnext a (Or.inl rfl), hprev b (Or.inl rfl)]
  | cons x xs ih =>
    intro a hnext hprev
    have hnext2 : ∀ y, y = x ∨ y ∈ xs → (g y).next = (f y).next := by
      intro y hy
      apply hnext
      right
      rcases hy with h | h
      · rw [h]
        exact List.mem_cons_self x xs
      · exact List.mem_cons_of_mem x h
    have hprev2 : ∀ y, y = b ∨ y ∈ xs → (g y).prev = (f y).prev := by
      intro y hy
      apply hprev
      rcases hy with h | h
      · exact Or.inl h
      · exact Or.inr (List.mem_cons_of_mem x h)
    simp only [chainB]
    rw [hnext a (Or.inl rfl), hprev x (Or.inr (List.mem_cons_self x xs)), ih x hnext2 hprev2]

theorem chainB_append_iff (f : Nat → ListNode) (b n : Nat) (l₁ l₂ : List Nat) :
    ∀ a, chainB f a (l₁ ++ n :: l₂) b = true ↔
      (chainB f a l₁ n = true ∧ chainB f n l₂ b = true) := by
  induction l₁ with
  | nil =>
    intro a
    simp only [List.nil_append]
    rw [chainB_cons_iff, chainB_nil_iff]
    tauto
  | cons x xs ih =>
    intro a
    simp only [List.cons_append]
    rw [chainB_cons_iff, chainB_cons_iff, ih x]
    tauto

theorem findGE_chain (f : Nat → ListNode) (v b : Nat) (ns : List Nat) :
    ∀ a, chainB f a ns b = true → v ≤ (f b).value →
      findGE f v (ns.length + 1) a =
        some ((ns.dropWhile (fun n => decide ((f n).value < v))).headD b) := by
  induction ns with
  | nil =>
    intro a h hb
    rw [chainB_nil_iff] at h
    simp [findGE, h.1, hb]
  | cons x xs ih =>
    intro a h hb
    rw [chainB_cons_iff] at h
    simp only [List.length_cons, findGE, h.1]
    by_cases hx : v ≤ (f x).value
    · rw [if_pos hx]
      rw [List.dropWhile_cons_of_neg (by simpa using (by omega : ¬ (f x).value < v))]
      rfl
    · rw [if_neg hx]
      rw [List.dropWhile_cons_of_pos (by simpa using (by omega : (f x).value < v))]
      exact ih x h.2.2 hb

theorem traverseFrom_chain (f : Nat → ListNode) (marker : Nat) (ns : List Nat) :
    ∀ a fuel, chainB f a ns marker = true → (∀ n ∈ ns, n ≠ marker) →
      ns.length < fuel → traverseFrom f marker fuel ((f a).next) = ns := by
  induction ns with
  | nil =>
    intro a fuel h _ hf
    rw [chainB_nil_iff] at h
    cases fuel with
    | zero => omega
    | succ k => simp [traverseFrom, h.1]
  | cons x xs ih =>
    intro a fuel h hmem hf
    rw [chainB_cons_iff] at h
    cases fuel with
    | zero => omega
    | succ k =>
      rw [h.1]
      simp only [traverseFrom]
      rw [if_neg (hmem x (List.mem_cons_self x xs))]
      rw [ih x k h.2.2 (fun n hn => hmem n (List.mem_cons_of_mem x hn)) (by simp at hf; omega)]

theorem chainB_end_prev (f : Nat → ListNode) (b : Nat) (ns : List Nat) :
    ∀ a, chainB f a ns b = true → (f b).prev = a ∨ (f b).prev ∈ ns := by
  induction ns with
  | nil =>
    intro a h
    rw [chainB_nil_iff] at h
    exact Or.inl h.2
  | cons x xs ih =>
    intro a h
    rw [chainB_cons_iff] at h
    rcases ih x h.2.2 with h1 | h1
    · right
      rw [h1]
      exact List.mem_cons_self x xs
    · exact Or.inr (List.mem_cons_of_mem x h1)

theorem linkBefore_chain_left (st : KList) (item it : Nat) (ns₁ : List Nat)
    (c₁ : chainB st.nodes st.marker ns₁ it = true)
    (hitem : it ≠ item) (hmitem : st.marker ≠ item)
    (hnd : ns₁.Nodup) (hi1 : item ∉ ns₁) (hitns : it ∉ ns₁) (hmns : st.marker ∉ ns₁) :
    chainB (st.linkBefore item it).nodes st.marker ns₁ item = true := by
  rcases List.eq_nil_or_concat ns₁ with hns | ⟨l, q, hns⟩
  · subst hns
    rw [chainB_nil_iff] at c₁ ⊢
    have hP0 : (st.nodes it).prev = st.marker := c₁.2
    have hP0item : (st.nodes it).prev ≠ item := by
      rw [hP0]
      exact hmitem
    constructor
    · have h := linkBefore_p_next st item it hitem hP0item
      rw [hP0] at h
      exact h
    · rw [linkBefore_item_prev st item it hitem hP0item, hP0]
  · subst hns
    rw [List.concat_eq_append] at c₁ hnd hi1 hitns hmns ⊢
    rw [chainB_append_iff] at c₁
    obtain ⟨c₁a, c₁b⟩ := c₁
    rw [chainB_nil_iff] at c₁b
    have hq1 : q ∈ l ++ [q] := by simp
    have hP0 : (st.nodes it).prev = q := c₁b.2
    have hP0item : (st.nodes it).prev ≠ item := by
      rw [hP0]
      intro hc
      exact hi1 (hc ▸ hq1)
    obtain ⟨hndl, _, hdisjq⟩ := List.nodup_append.mp hnd
    have hnext : ∀ x, x = st.marker ∨ x ∈ l →
        ((st.linkBefore item it).nodes x).next = (st.nodes x).next := by
      intro x hx
      have hxns : x ∈ l ++ [q] → x ∈ l ++ [q] := id
      apply linkBefore_next_other st item it x hitem
      · rcases hx with h | h
        · rw [h]
          exact hmitem
        · intro hc
          exact hi1 (hc ▸ List.mem_append_left _ h)
      · rw [hP0]
        rcases hx with h | h
        · rw [h]
          intro hc
          exact hmns (hc ▸ hq1)
        · intro hc
          exact hdisjq (hc ▸ h) (by simp)
    have hprev : ∀ x, x = q ∨ x ∈ l →
        ((st.linkBefore item it).nodes x).prev = (st.nodes x).prev := by
      intro x hx
      have hxmem : x ∈ l ++ [q] := by
        rcases hx with h | h
        · rw [h]
          exact hq1
        · exact List.mem_append_left _ h
      apply linkBefore_prev_other st item it x hitem
      · intro hc
        exact hi1 (hc ▸ hxmem)
      · intro hc
        exact hitns (hc ▸ hxmem)
    rw [chainB_append_iff]
    constructor
    · rw [chainB_congr st.nodes (st.linkBefore item it).nodes q l st.marker hnext hprev]
      exact c₁a
    · rw [chainB_nil_iff]
      constructor
      · have h := linkBefore_p_next st item it hitem hP0item
        rw [hP0] at h
        exact h
      · rw [linkBefore_item_prev st item it hitem hP0item, hP0]

theorem linkBefore_wf (st : KList) (item : Nat) (ns₁ ns₂ : List Nat)
    (hwf : st.wf (ns₁ ++ ns₂)) (hni : item ∉ ns₁ ++ ns₂) (hm : item ≠ st.marker)
    (h0 : item ≠ 0) :
    (st.linkBefore item (ns₂.headD st.marker)).wf (ns₁ ++ item :: ns₂) := by
  obtain ⟨hchain, hlen, hnodup, hmm, hm0, h0s, hcont, hval⟩ := hwf
  have hi1 : item ∉ ns₁ := fun h => hni (List.mem_append_left _ h)
  have hi2 : item ∉ ns₂ := fun h => hni (List.mem_append_right _ h)
  have hm1 : st.marker ∉ ns₁ := fun h => hmm (List.mem_append_left _ h)
  have hm2 : st.marker ∉ ns₂ := fun h => hmm (List.mem_append_right _ h)
  have h01 : (0 : Nat) ∉ ns₁ := fun h => h0s (List.mem_append_left _ h)
  have h02 : (0 : Nat) ∉ ns₂ := fun h => h0s (List.mem_append_right _ h)
  obtain ⟨hnd1, hnd2, hdisj⟩ := List.nodup_append.mp hnodup
  have hitem : (ns₂.headD st.marker) ≠ item := by
    cases ns₂ with
    | nil => exact Ne.symm hm
    | cons y ys =>
      simp only [List.headD_cons]
      intro hc
      apply hi2
      rw [← hc]
      exact List.mem_cons_self y ys
  refine ⟨?_, ?_, ?_, ?_, ?_, ?_, ?_, ?_⟩
  · -- the rebuilt chain
    cases ns₂ with
    | nil =>
      rw [List.append_nil] at hchain
      simp only [List.headD_nil, linkBefore_marker]
      have hA := linkBefore_chain_left st item st.marker ns₁ hchain (Ne.symm hm)
        (Ne.symm hm) hnd1 hi1 hm1 hm1
      rw [chainB_append_iff]
      refine ⟨hA, ?_⟩
      rw [chainB_nil_iff]
      have hP0mem := chainB_end_prev st.nodes st.marker ns₁ st.marker hchain
      have hP0item : (st.nodes st.marker).prev ≠ item := by
        rcases hP0mem with h | h
        · rw [h]
          exact Ne.symm hm
        · intro hc
          exact hi1 (hc ▸ h)
      constructor
      · exact linkBefore_item_next st item st.marker (Ne.symm hm) hP0item
      · exact linkBefore_it_prev st item st.marker (Ne.symm hm)
    | cons n₂ rest =>
      rw [chainB_append_iff] at hchain
      obtain ⟨c₁, c₂⟩ := hchain
      simp only [List.headD_cons, linkBefore_marker]
      have hn₂ : n₂ ∈ n₂ :: rest := List.mem_cons_self n₂ rest
      have hitem2 : n₂ ≠ item := fun hc => hi2 (hc ▸ hn₂)
      have hitns : n₂ ∉ ns₁ := fun hc => hdisj hc hn₂
      have hP0mem := chainB_end_prev st.nodes n₂ ns₁ st.marker c₁
      have hP0item : (st.nodes n₂).prev ≠ item := by
        rcases hP0mem with h | h
        · rw [h]
          exact Ne.symm hm
        · intro hc
          exact hi1 (hc ▸ h)
      have hA := linkBefore_chain_left st item n₂ ns₁ c₁ hitem2 (Ne.symm hm) hnd1 hi1 hitns hm1
      rw [chainB_append_iff]
      refine ⟨hA, ?_⟩
      rw [chainB_cons_iff]
      refine ⟨?_, ?_, ?_⟩
      · exact linkBefore_item_next st item n₂ hitem2 hP0item
      · exact linkBefore_it_prev st item n₂ hitem2
      · have hnext : ∀ x, x = n₂ ∨ x ∈ rest →
            ((st.linkBefore item n₂).nodes x).next = (st.nodes x).next := by
          intro x hx
          have hxns2 : x ∈ n₂ :: rest := by
            rcases hx with h | h
            · rw [h]
              exact hn₂
            · exact List.mem_cons_of_mem _ h
          apply linkBefore_next_other st item n₂ x hitem2
          · intro hc
            exact hi2 (hc ▸ hxns2)
          · rcases hP0mem with h | h
            · rw [h]
              intro hc
              exact hm2 (hc ▸ hxns2)
            · intro hc
              exact hdisj (hc ▸ h) hxns2
        have hprev : ∀ x, x = st.marker ∨ x ∈ rest →
            ((st.linkBefore item n₂).nodes x).prev = (st.nodes x).prev := by
          intro x hx
          apply linkBefore_prev_other st item n₂ x hitem2
          · rcases hx with h | h
            · rw [h]
              exact Ne.symm hm
            · intro hc
              exact hi2 (hc ▸ List.mem_cons_of_mem _ h)
          · rcases hx with h | h
            · rw [h]
              intro hc
              exact hm2 (hc ▸ hn₂)
            · intro hc
              exact (List.nodup_cons.mp hnd2).1 (hc ▸ h)
        rw [chainB_congr st.nodes (st.linkBefore item n₂).nodes st.marker rest n₂ hnext hprev]
        exact c₂
  · -- length
    simp only [linkBefore_length]
    rw [hlen]
    simp only [List.length_append, List.length_cons]
    omega
  · -- nodup
    exact List.nodup_middle.mpr (List.nodup_cons.mpr ⟨hni, hnodup⟩)
  · -- the sentinel is not among the nodes
    simp only [linkBefore_marker]
    intro h
    rcases List.mem_append.mp h with h | h
    · exact hm1 h
    · rcases List.mem_cons.mp h with h | h
      · exact hm h.symm
      · exact hm2 h
  · -- the sentinel is not null
    simp only [linkBefore_marker]
    exact hm0
  · -- no node is null
    intro h
    rcases List.mem_append.mp h with h | h
    · exact h01 h
    · rcases List.mem_cons.mp h with h | h
      · exact h0 h.symm
      · exact h02 h
  · -- containers all point at this list
    simp only [linkBefore_self]
    rw [List.all_eq_true]
    intro x hx
    rw [decide_eq_true_eq]
    rcases List.mem_append.mp hx with h | h
    · have hxi : x ≠ item := fun hc => hi1 (hc ▸ h)
      rw [linkBefore_container_other st item _ x hxi]
      have := List.all_eq_true.mp hcont x (List.mem_append_left _ h)
      rwa [decide_eq_true_eq] at this
    · rcases List.mem_cons.mp h with h | h
      · rw [h]
        exact linkBefore_item_container st item _
      · have hxi : x ≠ item := fun hc => hi2 (hc ▸ h)
        rw [linkBefore_container_other st item _ x hxi]
        have := List.all_eq_true.mp hcont x (List.mem_append_right _ h)
        rwa [decide_eq_true_eq] at this
  · -- the sentinel keeps its maximal value
    simp only [linkBefore_marker]
    rw [linkBefore_value]
    exact hval

/-- C5 (amended): `insert_sorted` places the new node immediately BEFORE
the first node (in forward traversal from the sentinel) whose value is
greater than or equal to the new node's value.  Every node that precedes
the new node in the resulting traversal has a strictly smaller value, so a
new node with a value equal to an existing node's value lands before the
existing one — not after it, as the claim states. -/
theorem KList.insert_sorted_spec (st : KList) (item : Nat) (ns : List Nat)
    (hwf : st.wf ns) (hni : item ∉ ns) (hm : item ≠ st.marker) (h0 : item ≠ 0)
    (hu : (st.nodes item).value ≤ U64_MAX) :
    ∃ st2, st.insert_sorted item = some st2 ∧
      st2.wf (ns.takeWhile (fun n => decide ((st.nodes n).value < (st.nodes item).value)) ++
        item :: ns.dropWhile (fun n => decide ((st.nodes n).value < (st.nodes item).value))) ∧
      st2.traversal =
        ns.takeWhile (fun n => decide ((st.nodes n).value < (st.nodes item).value)) ++
          item :: ns.dropWhile (fun n => decide ((st.nodes n).value < (st.nodes item).value)) ∧
      ∀ x ∈ ns.takeWhile (fun n => decide ((st.nodes n).value < (st.nodes item).value)),
        (st.nodes x).value < (st.nodes item).value := by
  have hchain := hwf.1
  have hlen := hwf.2.1
  have hval := hwf.2.2.2.2.2.2.2
  have hfind := findGE_chain st.nodes ((st.nodes item).value) st.marker ns st.marker hchain
    (by rw [hval]; exact hu)
  have hsome : st.insert_sorted item =
      some (st.linkBefore item
        ((ns.dropWhile
          (fun n => decide ((st.nodes n).value < (st.nodes item).value))).headD st.marker)) := by
    unfold KList.insert_sorted
    rw [hlen, hfind]
  have hsplit :
      ns.takeWhile (fun n => decide ((st.nodes n).value < (st.nodes item).value)) ++
        ns.dropWhile (fun n => decide ((st.nodes n).value < (st.nodes item).value)) = ns :=
    List.takeWhile_append_dropWhile _ ns
  have hwf2 : st.wf
      (ns.takeWhile (fun n => decide ((st.nodes n).value < (st.nodes item).value)) ++
        ns.dropWhile (fun n => decide ((st.nodes n).value < (st.nodes item).value))) := by
    rw [hsplit]
    exact hwf
  have hni2 : item ∉
      ns.takeWhile (fun n => decide ((st.nodes n).value < (st.nodes item).value)) ++
        ns.dropWhile (fun n => decide ((st.nodes n).value < (st.nodes item).value)) := by
    rw [hsplit]
    exact hni
  have hlb := linkBefore_wf st item
    (ns.takeWhile (fun n => decide ((st.nodes n).value < (st.nodes item).value)))
    (ns.dropWhile (fun n => decide ((st.nodes n).value < (st.nodes item).value)))
    hwf2 hni2 hm h0
  refine ⟨_, hsome, hlb, ?_, ?_⟩
  · obtain ⟨hchain2, hlen2, _, hmm2, _, _, _, _⟩ := hlb
    unfold KList.traversal
    apply traverseFrom_chain
    · exact hchain2
    · intro n hn hc
      exact hmm2 (hc ▸ hn)
    · rw [hlen2]
      omega
  · intro x hx
    have hpx := List.mem_takeWhile_imp hx
    simpa using hpx

/-- Witness for the amended C5 theorem: inserting the fresh node 3 (value
5) into the two-element list with values 3 and 9 places it between them,
giving the traversal `[2, 3, 4]`. -/
theorem KList.insert_sorted_spec_witness :
    (exList2.insert_sorted 3).map KList.traversal = some [2, 3, 4] := by
  obtain ⟨st2, h1, h2, h3, h4⟩ :=
    KList.insert_sorted_spec exList2 3 [2, 4] (by decide) (by decide) (by decide) (by decide)
      (by decide)
  rw [h1]
  show some (st2.traversal) = some [2, 3, 4]
  rw [h3]
  decide

/-! ## Theorems about the scheduler -/

/-- C9: with the machine interrupt-enable bit modelled as state, `suspend`
always increments the nesting depth and disables interrupts exactly on
the 0 to 1 depth transition; `resume` with positive depth decrements the
depth and re-enables interrupts exactly on the 1 to 0 transition; hence a
nested suspend-suspend-resume-resume sequence starting with interrupts
enabled keeps them disabled until the final resume, which re-enables
them. -/
theorem suspend_resume_nesting :
    (∀ (s : Scheduler) (mie : Bool),
      (suspend s mie).1.suspend_depth = s.suspend_depth + 1) ∧
    (∀ (s : Scheduler) (mie : Bool), s.suspend_depth = 0 → (suspend s mie).2 = false) ∧
    (∀ (s : Scheduler) (mie : Bool), s.suspend_depth ≠ 0 → (suspend s mie).2 = mie) ∧
    (∀ (s : Scheduler) (mie : Bool), 0 < s.suspend_depth →
      (resume s mie).1.suspend_depth = s.suspend_depth - 1) ∧
    (∀ (s : Scheduler) (mie : Bool), s.suspend_depth = 1 → (resume s mie).2 = true) ∧
    (∀ (s : Scheduler) (mie : Bool), 1 < s.suspend_depth → (resume s mie).2 = mie) ∧
    (∀ s : Scheduler, s.suspend_depth = 0 →
      (suspendTwiceResumeTwice s true).1.2 = false ∧
      (suspendTwiceResumeTwice s true).2.1.2 = false ∧
      (suspendTwiceResumeTwice s true).2.1.1.suspend_depth = 2 ∧
      (suspendTwiceResumeTwice s true).2.2.1.2 = false ∧
      (suspendTwiceResumeTwice s true).2.2.1.1.suspend_depth = 1 ∧
      (suspendTwiceResumeTwice s true).2.2.2.2 = true ∧
      (suspendTwiceResumeTwice s true).2.2.2.1.suspend_depth = 0) := by
  refine ⟨?_, ?_, ?_, ?_, ?_, ?_, ?_⟩
  · intro s mie
    simp [suspend]
  · intro s mie h
    simp [suspend, h]
  · intro s mie h
    simp [suspend, h]
  · intro s mie h
    unfold resume
    rw [if_pos h]
    dsimp only
    split <;> rfl
  · intro s mie h
    unfold resume
    rw [if_pos (show s.suspend_depth > 0 by omega)]
    dsimp only
    rw [if_pos (show s.suspend_depth - 1 = 0 by omega)]
  · intro s mie h
    unfold resume
    rw [if_pos (show s.suspend_depth > 0 by omega)]
    dsimp only
    rw [if_neg (show ¬ s.suspend_depth - 1 = 0 by omega)]
  · intro s h
    simp [suspendTwiceResumeTwice, suspend, resume, h]

/-- Witness for C9 at the concrete state `exSched` (depth 0). -/
theorem suspend_resume_nesting_witness :
    (suspendTwiceResumeTwice exSched true).1.2 = false ∧
    (suspendTwiceResumeTwice exSched true).2.1.1.suspend_depth = 2 ∧
    (suspendTwiceResumeTwice exSched true).2.2.2.2 = true ∧
    (suspendTwiceResumeTwice exSched true).2.2.2.1.suspend_depth = 0 :=
  have h := suspend_resume_nesting.2.2.2.2.2.2 exSched rfl
  ⟨h.1, h.2.2.1, h.2.2.2.2.2.1, h.2.2.2.2.2.2⟩

/-- C10: calling `resume` with `suspend_depth = 0` is a total no-op: the
whole scheduler state (in particular the depth, with no integer
underflow) and the interrupt-enable bit are returned unchanged. -/
theorem resume_at_depth_zero_noop (s : Scheduler) (mie : Bool)
    (h : s.suspend_depth = 0) :
    resume s mie = (s, mie) := by
  have hneg : ¬ s.suspend_depth > 0 := by omega
  unfold resume
  rw [if_neg hneg]

/-- Witness for C10 at the concrete state `exSched` (depth 0). -/
theorem resume_at_depth_zero_noop_witness :
    exSched.suspend_depth = 0 ∧ resume exSched false = (exSched, false) :=
  ⟨rfl, resume_at_depth_zero_noop exSched false rfl⟩

theorem scanReady_finds (rl : Nat → List Nat) (k : Nat) :
    ∀ n, k ≤ n → (∀ q, k < q → q ≤ n → rl q = []) → rl k ≠ [] →
      scanReady rl n = (rl k).head? := by
  intro n
  induction n with
  | zero =>
    intro h0 _ _
    have hk : k = 0 := by omega
    rw [hk]
    rfl
  | succ m ih =>
    intro hk hemp hne
    by_cases hkm : k = m + 1
    · subst hkm
      cases hcase : rl (m + 1) with
      | nil => exact absurd hcase hne
      | cons y ys =>
        simp only [scanReady, hcase, List.head?_cons]
    · have hkm2 : k ≤ m := by omega
      have hempty : rl (m + 1) = [] := hemp (m + 1) (by omega) (Nat.le_refl _)
      simp only [scanReady, hempty, List.head?_nil]
      exact ih hkm2 (fun q h1 h2 => hemp q h1 (by omega)) hne

/-- C4: in every scheduler state satisfying the invariants in which
exactly the tasks `hi` and `lo` are ready, with `hi`'s priority strictly
greater than `lo`'s, `select_highest_priority_task` returns `hi` and sets
`hi`'s state to `Running`. -/
theorem select_highest_priority_task_strict (s : Scheduler) (hi lo : Nat)
    (hplt : (s.tcbs lo).priority < (s.tcbs hi).priority)
    (hhi : s.ready_lists ((s.tcbs hi).priority) = [hi])
    (hlo : s.ready_lists ((s.tcbs lo).priority) = [lo])
    (hother : ∀ p, p ≠ (s.tcbs hi).priority → p ≠ (s.tcbs lo).priority →
      s.ready_lists p = [])
    (htop : (s.tcbs hi).priority ≤ s.top_ready_priority) :
    (select_highest_priority_task s).2 = some hi ∧
    ((select_highest_priority_task s).1.tcbs hi).state = TaskState.Running := by
  have key : ∀ (rl : Nat → List Nat) (top : Nat), rl = s.ready_lists →
      top = s.top_ready_priority → scanReady rl top = some hi := by
    intro rl top hrl htop2
    subst hrl
    subst htop2
    rw [scanReady_finds s.ready_lists ((s.tcbs hi).priority) s.top_ready_priority htop
      ?hemp ?hne]
    · rw [hhi]
      rfl
    case hemp =>
      intro q h1 h2
      apply hother
      · omega
      · omega
    case hne =>
      rw [hhi]
      exact List.cons_ne_nil hi []
  unfold select_highest_priority_task
  cases hcur : s.current_task with
  | none =>
    simp only [hcur]
    rw [key s.ready_lists s.top_ready_priority rfl rfl]
    exact ⟨rfl, by simp [setState]⟩
  | some c =>
    simp only [hcur]
    rw [key (setState s c TaskState.Ready).ready_lists
      (setState s c TaskState.Ready).top_ready_priority rfl rfl]
    exact ⟨rfl, by simp [setState]⟩

/-- Witness for C4 at the concrete state `exSched3` (task 0 at priority 3,
task 1 at priority 1). -/
theorem select_highest_priority_task_strict_witness :
    (select_highest_priority_task exSched3).2 = some 0 ∧
    ((select_highest_priority_task exSched3).1.tcbs 0).state = TaskState.Running :=
  select_highest_priority_task_strict exSched3 0 1 (by decide) (by decide) (by decide)
    (by
      intro p h3 h1
      simp [exSched3] at h3 h1
      simp [exSched3, h3, h1])
    (by decide)

theorem add_ready_lists (s : Scheduler) (t q : Nat) :
    (add_task_to_ready_list s t).ready_lists q =
      if q = (s.tcbs t).priority then s.ready_lists q ++ [t] else s.ready_lists q := by
  unfold add_task_to_ready_list
  split_ifs with h1 <;> simp [setList, setState] <;> split_ifs <;> simp_all

theorem add_top_ready (s : Scheduler) (t : Nat) :
    (add_task_to_ready_list s t).top_ready_priority =
      max s.top_ready_priority (s.tcbs t).priority := by
  unfold add_task_to_ready_list
  dsimp only
  split_ifs with h1 <;> simp [setList, setState] at h1 ⊢ <;> omega

theorem remove_snd (s : Scheduler) (t : Nat) :
    (remove_task_from_ready_list s t).2 = true ↔
      t ∈ s.ready_lists ((s.tcbs t).priority) := by
  unfold remove_task_from_ready_list
  dsimp only
  split_ifs with h <;> simp [h]

theorem updateTopAux_exact (rl : Nat → List Nat) :
    ∀ n, (∀ p, rl p ≠ [] → p ≤ n) →
      (∀ p, rl p ≠ [] → p ≤ updateTopAux rl n) ∧
      (updateTopAux rl n = IDLE_PRIORITY ∨ rl (updateTopAux rl n) ≠ []) := by
  intro n
  induction n with
  | zero =>
    intro h
    exact ⟨fun p hp => h p hp, Or.inl rfl⟩
  | succ m ih =>
    intro h
    by_cases he : (rl (m + 1)).isEmpty
    · have h2 : ∀ p, rl p ≠ [] → p ≤ m := by
        intro p hp
        have h3 := h p hp
        have hne : p ≠ m + 1 := by
          intro hc
          subst hc
          exact hp (List.isEmpty_iff.mp he)
        omega
      simp only [updateTopAux, if_pos he]
      exact ih h2
    · simp only [updateTopAux, if_neg he]
      refine ⟨fun p hp => h p hp, Or.inr ?_⟩
      intro hc
      exact he (by simp [hc])

theorem TopInv_add (s : Scheduler) (t : Nat) (h : TopInv s) :
    TopInv (add_task_to_ready_list s t) := by
  intro p hp
  rw [add_ready_lists] at hp
  rw [add_top_ready]
  by_cases hq : p = (s.tcbs t).priority
  · rw [hq]
    exact Nat.le_max_right _ _
  · rw [if_neg hq] at hp
    exact Nat.le_trans (h p hp) (Nat.le_max_left _ _)

theorem TopExact_update (s : Scheduler) (h : TopInv s) :
    TopExact (update_top_ready_priority s) := by
  have hx := updateTopAux_exact s.ready_lists s.top_ready_priority h
  exact ⟨hx.1, hx.2⟩

theorem TopInv_setList_erase (s : Scheduler) (t : Nat) (h : TopInv s) :
    TopInv (setList s ((s.tcbs t).priority)
      ((s.ready_lists ((s.tcbs t).priority)).erase t)) := by
  intro p hp
  simp only [setList] at hp
  by_cases hq : p = (s.tcbs t).priority
  · rw [if_pos hq] at hp
    have hls : s.ready_lists ((s.tcbs t).priority) ≠ [] := by
      intro hc
      rw [hc] at hp
      exact hp rfl
    have h2 := h _ hls
    show p ≤ s.top_ready_priority
    omega
  · rw [if_neg hq] at hp
    exact h p hp

theorem TopInv_remove (s : Scheduler) (t : Nat) (h : TopInv s) :
    TopInv (remove_task_from_ready_list s t).1 := by
  unfold remove_task_from_ready_list
  by_cases hmem : t ∈ s.ready_lists ((s.tcbs t).priority)
  · rw [if_pos hmem]
    dsimp only
    split_ifs with hc
    · exact (TopExact_update _ (TopInv_setList_erase s t h)).1
    · exact TopInv_setList_erase s t h
  · rw [if_neg hmem]
    exact h

theorem TopInv_yield (s : Scheduler) (h : TopInv s) : TopInv (yield_task s) := by
  unfold yield_task
  split
  · exact h
  · exact TopInv_add _ _ (TopInv_remove s _ h)

theorem TopExact_remove (s : Scheduler) (t : Nat) (h : TopExact s)
    (hr : (remove_task_from_ready_list s t).2 = true) :
    TopExact (remove_task_from_ready_list s t).1 := by
  have hmem : t ∈ s.ready_lists ((s.tcbs t).priority) := (remove_snd s t).mp hr
  unfold remove_task_from_ready_list
  rw [if_pos hmem]
  dsimp only
  split_ifs with hc
  · exact TopExact_update _ (TopInv_setList_erase s t h.1)
  · refine ⟨TopInv_setList_erase s t h.1, ?_⟩
    rcases h.2 with h2 | h2
    · exact Or.inl h2
    · right
      simp only [setList]
      by_cases htp : s.top_ready_priority = (s.tcbs t).priority
      · rw [if_pos htp]
        intro hcon
        apply hc
        refine ⟨?_, ?_⟩
        · simp only [setList]
          simp [hcon]
        · exact htp.symm
      · rw [if_neg htp]
        exact h2

/-- C6 (amended): the invariant that `top_ready_priority` is at least the
index of every non-empty ready list is preserved by
`add_task_to_ready_list`, `remove_task_from_ready_list` and `yield_task`;
immediately after any `update_top_ready_priority` call from an invariant
state the cache is exact (it indexes a non-empty list, or is
`IDLE_PRIORITY` when all lists are empty); and a
`remove_task_from_ready_list` call that returns `true` keeps the cache
exact provided it was exact before the call.  (Exactness before the call
is required: the code rescans only when the removal emptied the list at
the cached top priority, so a merely-sound stale cache survives the
removal of the last task of a lower priority.) -/
theorem top_ready_priority_cache (s : Scheduler) (t : Nat) :
    (TopInv s → TopInv (add_task_to_ready_list s t)) ∧
    (TopInv s → TopInv (remove_task_from_ready_list s t).1) ∧
    (TopInv s → TopInv (yield_task s)) ∧
    (TopInv s → TopExact (update_top_ready_priority s)) ∧
    (TopExact s → (remove_task_from_ready_list s t).2 = true →
      TopExact (remove_task_from_ready_list s t).1) :=
  ⟨TopInv_add s t, TopInv_remove s t, TopInv_yield s, TopExact_update s,
    TopExact_remove s t⟩

/-- C6 counterexample: in the state `exSched` (a single task, id 7, at
priority 3, with the sound but inexact cache value 5) the stated
invariant holds and removing task 7 returns `true` and empties every
ready list, yet `top_ready_priority` stays 5 instead of dropping to
`IDLE_PRIORITY`: the code rescans only when the emptied list sits at the
cached top priority. -/
theorem remove_keeps_stale_top :
    TopInv exSched ∧
    (remove_task_from_ready_list exSched 7).2 = true ∧
    (remove_task_from_ready_list exSched 7).1.top_ready_priority = 5 ∧
    (remove_task_from_ready_list exSched 7).1.ready_lists 5 = [] ∧
    ¬ TopExact (remove_task_from_ready_list exSched 7).1 := by
  have htop : (remove_task_from_ready_list exSched 7).1.top_ready_priority = 5 := by decide
  have hl5 : (remove_task_from_ready_list exSched 7).1.ready_lists 5 = [] := by decide
  refine ⟨?_, by decide, htop, hl5, ?_⟩
  · intro p hp
    simp only [exSched] at hp ⊢
    split at hp
    · omega
    · exact absurd rfl hp
  · intro hcon
    rcases hcon.2 with h | h
    · rw [htop] at h
      exact absurd h (by decide)
    · rw [htop] at h
      exact h hl5

/-- Witness for the amended C6 theorem at the concrete state `exSched`
and task 7: the rescan makes the cache exact, yield preserves the
invariant, and the successful removal preserves soundness. -/
theorem top_ready_priority_cache_witness :
    TopExact (update_top_ready_priority exSched) ∧
    TopInv (yield_task exSched) ∧
    TopInv (remove_task_from_ready_list exSched 7).1 := by
  have hinv : TopInv exSched := by
    intro p hp
    simp only [exSched] at hp ⊢
    split at hp
    · omega
    · exact absurd rfl hp
  exact ⟨(top_ready_priority_cache exSched 7).2.2.2.1 hinv,
    (top_ready_priority_cache exSched 7).2.2.1 hinv,
    (top_ready_priority_cache exSched 7).2.1 hinv⟩

theorem remove_ready_lists_self (s : Scheduler) (t : Nat)
    (hmem : t ∈ s.ready_lists ((s.tcbs t).priority)) :
    (remove_task_from_ready_list s t).1.ready_lists ((s.tcbs t).priority) =
      (s.ready_lists ((s.tcbs t).priority)).erase t := by
  unfold remove_task_from_ready_list
  rw [if_pos hmem]
  dsimp only
  split_ifs with hc
  · simp [update_top_ready_priority, setList]
  · simp [setList]

/-- C3: if `select_next_different_task` runs with a current task of
priority 2 while another task is linked in ready list 2 (so the list is
non-empty after the current task is unlinked), the hard-coded debug
assertion fires and the function panics instead of returning the other
task; with a current task of any other priority the list-empty assertion
can never fire. -/
theorem priority2_debug_assertion (s : Scheduler) (c d : Nat) :
    (s.current_task = some c → (s.tcbs c).priority = 2 →
      c ∈ s.ready_lists ((s.tcbs c).priority) →
      d ∈ s.ready_lists ((s.tcbs c).priority) → d ≠ c →
      select_next_different_task s = Except.error SchedPanic.listNotEmpty) ∧
    (s.current_task = some c → (s.tcbs c).priority ≠ 2 →
      select_next_different_task s ≠ Except.error SchedPanic.listNotEmpty) := by
  constructor
  · intro hcur hpri hc hd hdc
    have hrem : (remove_task_from_ready_list s c).2 = true := (remove_snd s c).mpr hc
    have herase : d ∈ (s.ready_lists ((s.tcbs c).priority)).erase c :=
      (List.mem_erase_of_ne hdc).mpr hd
    have hne : ((remove_task_from_ready_list s c).1.ready_lists
        ((s.tcbs c).priority)).isEmpty = false := by
      rw [remove_ready_lists_self s c hc, Bool.eq_false_iff]
      intro hT
      exact List.ne_nil_of_mem herase (List.isEmpty_iff.mp hT)
    have hyes : (s.tcbs c).priority = 2 ∧
        ((remove_task_from_ready_list s c).1.ready_lists
          ((s.tcbs c).priority)).isEmpty = false := ⟨hpri, hne⟩
    unfold select_next_different_task
    rw [hcur]
    dsimp only
    rw [hrem]
    rw [if_neg (show ¬ ((true : Bool) = false) by simp)]
    rw [if_pos hyes]
  · intro hcur hpri
    unfold select_next_different_task
    rw [hcur]
    dsimp only
    by_cases hr : (remove_task_from_ready_list s c).2 = false
    · rw [hr]
      rw [if_pos (show (false : Bool) = false from rfl)]
      exact fun hcon => SchedPanic.noConfusion (Except.error.inj hcon)
    · have hr2 : (remove_task_from_ready_list s c).2 = true := by
        cases hb : (remove_task_from_ready_list s c).2
        · exact absurd hb hr
        · rfl
      rw [hr2]
      rw [if_neg (show ¬ ((true : Bool) = false) by simp)]
      have hno : ¬ ((s.tcbs c).priority = 2 ∧
          ((remove_task_from_ready_list s c).1.ready_lists
            ((s.tcbs c).priority)).isEmpty = false) := fun hcon => hpri hcon.1
      rw [if_neg hno]
      split
      · split_ifs <;> exact fun hcon => Except.noConfusion hcon
      · exact fun hcon => Except.noConfusion hcon

/-- Witness for C3: at `exSched2` (current task 10 and task 11 both at
priority 2, both linked in ready list 2) the function panics with the
list-not-empty assertion; at `exSched4` (current task 0 at priority 3)
the list-empty assertion cannot fire. -/
theorem priority2_debug_assertion_witness :
    select_next_different_task exSched2 = Except.error SchedPanic.listNotEmpty ∧
    select_next_different_task exSched4 ≠ Except.error SchedPanic.listNotEmpty :=
  ⟨(priority2_debug_assertion exSched2 10 11).1 rfl rfl (by decide) (by decide) (by decide),
    (priority2_debug_assertion exSched4 0 1).2 rfl (by decide)⟩

/-- C2 (code bug): at the failing input `exSched2` — the current task 10
and the ready task 11 both at priority 2, both linked in ready list 2 —
`select_next_different_task` panics through the hard-coded debug
assertion `assert!(self.ready_lists[priority].is_empty())` instead of
returning task 11 as the claim (and the function's own documentation)
describes.  The identical configuration moved to priority 3 (`exSched5`)
returns the other task 11 as claimed. -/
theorem select_next_different_task_priority2_bug :
    select_next_different_task exSched2 = Except.error SchedPanic.listNotEmpty ∧
    ∃ s3, select_next_different_task exSched5 = Except.ok (s3, some 11) := by
  constructor
  · rfl
  · exact ⟨_, rfl⟩
